import Mathlib

/-!
Verification of the TaskExecutionFramework repository.

Part 1 embeds `src/TEF_Light/tef_light.py` (the simplified engine):
the task tree model from `src/TEF_Light/models.py`, the depth-first
traversal `find_next_task`, and the Act→Assess→Adapt engine loop
`execute_task`.

Part 2 embeds the components of `src/old/prototype1/tef_orchestrator.py`
named by the claims: the recursive `execute_task` / `_execute_parent_task`
engine, the `_handle_task_failure` recovery handler, the
`_aggregate_observations` observer aggregator, the `PlanModifier`
decision handlers (`_handle_retry`, `_handle_decompose`,
`_parse_subtasks`), and the `_create_checkpoint` store.

Python dictionaries are embedded as structures carrying the fields the
embedded control flow actually reads; `dict.get(k)` of a possibly-absent
key becomes an `Option` field, and `dict.get(k, d)` becomes `Option`
plus `getD d`.  Timestamps, logging, printing and file persistence are
side effects with no influence on the values the claims speak about and
are omitted.
-/

namespace TEFLight

/-- `TaskNode` from `src/TEF_Light/models.py`: `id`, `description`,
`status`, `children` (a `None` children field and an empty list both
behave as "atomic" in `tef_light.py`, which tests `not tree.children`;
we embed children as a plain list).  `failure_threshold` is never read
by `tef_light.py` and is omitted. -/
inductive TaskNode : Type where
  | node (id : String) (description : String) (status : String) (children : List TaskNode)

def TaskNode.id : TaskNode → String
  | .node i _ _ _ => i

def TaskNode.description : TaskNode → String
  | .node _ d _ _ => d

def TaskNode.status : TaskNode → String
  | .node _ _ s _ => s

def TaskNode.children : TaskNode → List TaskNode
  | .node _ _ _ cs => cs

/-- Induction over the rose tree with the hypothesis available for every
child in the `children` list. -/
theorem TaskNode.inductionOn {motive : TaskNode → Prop}
    (h : ∀ i d s cs, (∀ c, c ∈ cs → motive c) → motive (.node i d s cs)) :
    ∀ t, motive t
  | .node i d s cs => h i d s cs (fun c hc => TaskNode.inductionOn h c)
termination_by t => sizeOf t
decreasing_by
  have hlt := List.sizeOf_lt_of_mem hc
  simp only [TaskNode.node.sizeOf_spec]
  omega

mutual

/-- `find_next_task` from `src/TEF_Light/tef_light.py` lines 123-136:
return the node itself when it is a pending leaf, otherwise the first
result found among the children in order.  (The source guards the loop
with `if tree.children:`, which is equivalent to looping over the
possibly-empty list.) -/
def find_next_task : TaskNode → Option TaskNode
  | .node i d s cs =>
    if cs.isEmpty ∧ s = "pending" then some (.node i d s cs)
    else find_next_task_list cs

/-- The `for child in tree.children` loop of `find_next_task`. -/
def find_next_task_list : List TaskNode → Option TaskNode
  | [] => none
  | c :: rest =>
    match find_next_task c with
    | some t => some t
    | none => find_next_task_list rest

end

/-- A node qualifies for `find_next_task` when it is a leaf (`children`
empty) with status `"pending"`. -/
def pendingLeaf (t : TaskNode) : Bool :=
  t.children.isEmpty && t.status == "pending"

mutual

/-- Depth-first pre-order listing of all nodes of the tree (document
order). -/
def preorder : TaskNode → List TaskNode
  | .node i d s cs => .node i d s cs :: preorder_list cs

def preorder_list : List TaskNode → List TaskNode
  | [] => []
  | c :: rest => preorder c ++ preorder_list rest

end

theorem find_next_task_list_eq (ts : List TaskNode)
    (h : ∀ c ∈ ts, find_next_task c = (preorder c).find? pendingLeaf) :
    find_next_task_list ts = (preorder_list ts).find? pendingLeaf := by
  induction ts with
  | nil => simp [find_next_task_list, preorder_list]
  | cons c rest ih =>
    rw [find_next_task_list, preorder_list, List.find?_append,
      h c (List.mem_cons_self c rest)]
    cases hfc : (preorder c).find? pendingLeaf with
    | some u => simp
    | none => simp [ih (fun x hx => h x (List.mem_cons_of_mem c hx))]

theorem find_next_task_eq_find? (t : TaskNode) :
    find_next_task t = (preorder t).find? pendingLeaf := by
  induction t using TaskNode.inductionOn with
  | h i d s cs ih =>
    rw [find_next_task, preorder, List.find?_cons]
    by_cases hc : cs.isEmpty ∧ s = "pending"
    · have hp : pendingLeaf (.node i d s cs) = true := by
        simp [pendingLeaf, TaskNode.children, TaskNode.status, hc.1, hc.2]
      rw [if_pos hc, hp]
    · have hp : pendingLeaf (.node i d s cs) = false := by
        simp only [pendingLeaf, TaskNode.children, TaskNode.status]
        rw [Bool.and_eq_false_iff]
        by_cases h1 : cs.isEmpty
        · right
          have h2 : ¬ s = "pending" := fun hs => hc ⟨h1, hs⟩
          simpa using h2
        · left
          simpa using h1
      rw [if_neg hc, hp]
      exact find_next_task_list_eq cs ih

/-- C1: `find_next_task` returns the first node in depth-first document
order that is a leaf (empty `children`) with status `"pending"`, and
returns `none` exactly when no such node exists.  It is a pure function
of the tree, so two calls on the same tree agree (purity is inherent in
the embedding: the source function only reads `children` and `status`). -/
theorem C1_find_next_task_first_pending_leaf (t : TaskNode) :
    find_next_task t = (preorder t).find? pendingLeaf ∧
    (find_next_task t = none ↔ ∀ u ∈ preorder t, ¬ pendingLeaf u) := by
  refine ⟨find_next_task_eq_find? t, ?_⟩
  rw [find_next_task_eq_find? t]
  exact List.find?_eq_none

/- ### The TEF_Light engine loop (`execute_task`, lines 79-119) -/

/-- `ExecutionResult` from `src/TEF_Light/models.py`. -/
structure ExecutionResult where
  status : String
  files_modified : List String
  changes_made : String
  git_diff : String
  errors : List String
  environment_path : String

/-- One perspective of `AssessmentResult` from `src/TEF_Light/models.py`. -/
structure PerspectiveAssessment where
  feasible : Bool
  blockers : List String
  observations : String

/-- `AssessmentResult` from `src/TEF_Light/models.py`. -/
structure AssessmentResult where
  build : PerspectiveAssessment
  requirements : PerspectiveAssessment
  integration : PerspectiveAssessment
  quality : PerspectiveAssessment

mutual

/-- The net effect of one iteration of the `while True` loop of
`execute_task` on the tree, under the precondition that `adapt` returns
`None` (no replacement tree): the loop body writes `"in_progress"` and
then `"completed"` into the `status` of the very node object returned by
`find_next_task`, so the tree ends the iteration with its first pending
leaf completed. -/
def completeNextTask : TaskNode → TaskNode
  | .node i d s cs =>
    if cs.isEmpty ∧ s = "pending" then .node i d "completed" cs
    else .node i d s (completeNextTask_list cs)

def completeNextTask_list : List TaskNode → List TaskNode
  | [] => []
  | c :: rest =>
    match find_next_task c with
    | some _ => completeNextTask c :: rest
    | none => c :: completeNextTask_list rest

end

mutual

/-- Number of leaves with status `"pending"` (the nodes `find_next_task`
can return). -/
def countPendingLeaves : TaskNode → Nat
  | .node _ _ s cs => if cs.isEmpty ∧ s = "pending" then 1 else countPendingLeaves_list cs

def countPendingLeaves_list : List TaskNode → Nat
  | [] => 0
  | c :: rest => countPendingLeaves c + countPendingLeaves_list rest

end

/-- One loop iteration of `execute_task` with the Act and Assess
collaborators abstracted as oracles, under the precondition that the
Adapt phase (`pathfinder.find_path`) returns `None`.  Returns `none`
when `find_next_task` finds nothing (the loop breaks).  The Act phase
runs only for leaves (`if not task.children`), the Assess phase for
every selected task; neither touches the tree. -/
def engineStep (act : TaskNode → ExecutionResult)
    (assess : TaskNode → AssessmentResult) (t : TaskNode) :
    Option (TaskNode × Option ExecutionResult × AssessmentResult) :=
  match find_next_task t with
  | none => none
  | some task =>
    some (completeNextTask t,
          if task.children.isEmpty then some (act task) else none,
          assess task)

theorem find_next_task_list_none_iff (ts : List TaskNode)
    (h : ∀ c ∈ ts, (find_next_task c = none ↔ countPendingLeaves c = 0)) :
    find_next_task_list ts = none ↔ countPendingLeaves_list ts = 0 := by
  induction ts with
  | nil => simp [find_next_task_list, countPendingLeaves_list]
  | cons c rest ih =>
    rw [find_next_task_list, countPendingLeaves_list]
    cases hfc : find_next_task c with
    | some u =>
      have : ¬ countPendingLeaves c = 0 := by
        intro h0
        have := (h c (List.mem_cons_self c rest)).mpr h0
        rw [this] at hfc
        exact Option.noConfusion hfc
      constructor
      · intro hnone
        exact absurd hnone (by simp)
      · intro hz
        omega
    | none =>
      have hc0 : countPendingLeaves c = 0 := (h c (List.mem_cons_self c rest)).mp hfc
      rw [hc0]
      simp only [Nat.zero_add]
      exact ih (fun x hx => h x (List.mem_cons_of_mem c hx))

theorem find_next_task_none_iff (t : TaskNode) :
    find_next_task t = none ↔ countPendingLeaves t = 0 := by
  induction t using TaskNode.inductionOn with
  | h i d s cs ih =>
    rw [find_next_task, countPendingLeaves]
    by_cases hc : cs.isEmpty ∧ s = "pending"
    · rw [if_pos hc, if_pos hc]
      simp
    · rw [if_neg hc, if_neg hc]
      exact find_next_task_list_none_iff cs ih

theorem completeNextTask_list_count (ts : List TaskNode)
    (h : ∀ c ∈ ts, ∀ u, find_next_task c = some u →
      countPendingLeaves (completeNextTask c) + 1 = countPendingLeaves c)
    (u : TaskNode) (hu : find_next_task_list ts = some u) :
    countPendingLeaves_list (completeNextTask_list ts) + 1 = countPendingLeaves_list ts := by
  induction ts with
  | nil => exact absurd hu (by rw [find_next_task_list]; simp)
  | cons c rest ih =>
    rw [find_next_task_list] at hu
    rw [completeNextTask_list]
    cases hfc : find_next_task c with
    | some v =>
      rw [countPendingLeaves_list, countPendingLeaves_list]
      have := h c (List.mem_cons_self c rest) v hfc
      omega
    | none =>
      rw [hfc] at hu
      rw [countPendingLeaves_list, countPendingLeaves_list]
      have := ih (fun x hx => h x (List.mem_cons_of_mem c hx)) hu
      omega

theorem completeNextTask_list_isEmpty (ts : List TaskNode) :
    (completeNextTask_list ts).isEmpty = ts.isEmpty := by
  cases ts with
  | nil => rfl
  | cons c rest =>
    rw [completeNextTask_list]
    cases hfc : find_next_task c <;> rfl

theorem completeNextTask_count (t : TaskNode) :
    ∀ u, find_next_task t = some u →
      countPendingLeaves (completeNextTask t) + 1 = countPendingLeaves t := by
  induction t using TaskNode.inductionOn with
  | h i d s cs ih =>
    intro u hu
    rw [find_next_task] at hu
    rw [completeNextTask, countPendingLeaves]
    by_cases hc : cs.isEmpty ∧ s = "pending"
    · rw [if_pos hc]
      have hcs : cs = [] := List.isEmpty_iff.mp hc.1
      subst hcs
      rw [countPendingLeaves]
      simp [countPendingLeaves_list, hc.2]
    · rw [if_neg hc, if_neg hc, countPendingLeaves]
      have hcond : ¬ ((completeNextTask_list cs).isEmpty ∧ s = "pending") := by
        rw [completeNextTask_list_isEmpty]
        exact hc
      rw [if_neg hcond]
      rw [if_neg hc] at hu
      exact completeNextTask_list_count cs ih u hu

theorem completeNextTask_list_of_none (ts : List TaskNode)
    (h : ∀ c ∈ ts, find_next_task c = none → completeNextTask c = c)
    (hn : find_next_task_list ts = none) :
    completeNextTask_list ts = ts := by
  induction ts with
  | nil => rfl
  | cons c rest ih =>
    rw [find_next_task_list] at hn
    rw [completeNextTask_list]
    cases hfc : find_next_task c with
    | some v => rw [hfc] at hn; exact Option.noConfusion hn
    | none =>
      rw [hfc] at hn
      rw [ih (fun x hx => h x (List.mem_cons_of_mem c hx)) hn]

theorem completeNextTask_of_none (t : TaskNode)
    (hn : find_next_task t = none) : completeNextTask t = t := by
  induction t using TaskNode.inductionOn with
  | h i d s cs ih =>
    rw [find_next_task] at hn
    rw [completeNextTask]
    by_cases hc : cs.isEmpty ∧ s = "pending"
    · rw [if_pos hc] at hn; exact Option.noConfusion hn
    · rw [if_neg hc] at hn
      rw [if_neg hc, completeNextTask_list_of_none cs ih hn]

theorem count_iterate_zero : ∀ (n : Nat) (t : TaskNode),
    countPendingLeaves t ≤ n → countPendingLeaves (completeNextTask^[n] t) = 0 := by
  intro n
  induction n with
  | zero => intro t ht; simpa using ht
  | succ n ih =>
    intro t ht
    rw [Function.iterate_succ_apply]
    cases hf : find_next_task t with
    | none =>
      rw [completeNextTask_of_none t hf]
      have h0 : countPendingLeaves t = 0 := (find_next_task_none_iff t).mp hf
      exact ih t (by omega)
    | some u =>
      have := completeNextTask_count t u hf
      exact ih (completeNextTask t) (by omega)

/-- C10: each iteration of the TEF_Light engine loop completes the node
returned by `find_next_task` regardless of the Act and Assess outcomes
(the resulting tree is independent of both oracles), it decreases the
number of pending leaves by exactly one, and — under the precondition
that Adapt never returns a replacement tree — after at most as many
iterations as there are pending leaves the loop's `find_next_task` test
fails and the loop terminates. -/
theorem C10_engine_loop_terminates
    (act1 act2 : TaskNode → ExecutionResult)
    (assess1 assess2 : TaskNode → AssessmentResult)
    (t : TaskNode) (n : Nat) (hn : countPendingLeaves t ≤ n) :
    (Option.map Prod.fst (engineStep act1 assess1 t)
      = Option.map Prod.fst (engineStep act2 assess2 t)) ∧
    (∀ u, find_next_task t = some u → pendingLeaf u = true ∧
      countPendingLeaves (completeNextTask t) + 1 = countPendingLeaves t) ∧
    find_next_task (completeNextTask^[n] t) = none := by
  refine ⟨?_, ?_, ?_⟩
  · cases hf : find_next_task t with
    | none => simp [engineStep, hf]
    | some u => simp [engineStep, hf]
  · intro u hu
    refine ⟨?_, completeNextTask_count t u hu⟩
    have := find_next_task_eq_find? t
    rw [this] at hu
    exact List.find?_some hu
  · rw [find_next_task_none_iff]
    exact count_iterate_zero n t hn

/-- A concrete tree for the C10 witness: a root with two pending leaf
children. -/
def exTree : TaskNode :=
  .node "root" "build the app" "in_progress"
    [.node "a" "write code" "pending" [], .node "b" "write tests" "pending" []]

def exAct : TaskNode → ExecutionResult :=
  fun _ => ⟨"success", [], "done", "", [], "./"⟩

def exAssess : TaskNode → AssessmentResult :=
  fun _ => ⟨⟨true, [], ""⟩, ⟨true, [], ""⟩, ⟨true, [], ""⟩, ⟨true, [], ""⟩⟩

theorem C10_witness :
    countPendingLeaves exTree ≤ 2 ∧
    find_next_task (completeNextTask^[2] exTree) = none := by
  have h := C10_engine_loop_terminates exAct exAct exAssess exAssess exTree 2 (by decide)
  exact ⟨by decide, h.2.2⟩

end TEFLight

namespace Prototype1

/-! ### Observer aggregation (`_aggregate_observations`, lines 465-505) -/

/-- One observer report as consumed by `_aggregate_observations`.
Reports are Python dicts; the aggregator reads `status` (default
`"unknown"`) and `confidence` (no default in the filter).  Both are
embedded as `Option` fields.  The remaining keys (`observer_type`,
`observations`, `summary`, ...) are carried through unchanged by the
aggregator and are irrelevant to the claims. -/
structure ObserverReport where
  observer_type : String
  status : Option String
  confidence : Option ℚ

/-- `obs.get("status", "unknown")`. -/
def reportStatus (o : ObserverReport) : String :=
  o.status.getD "unknown"

/-- Overall status computed by `_aggregate_observations`: priority
`fail > warning > pass > unknown`. -/
def overall_status (observations : List ObserverReport) : String :=
  let statuses := observations.map reportStatus
  if "fail" ∈ statuses then "fail"
  else if "warning" ∈ statuses then "warning"
  else if "pass" ∈ statuses then "pass"
  else "unknown"

/-- The filter `if obs.get("confidence")` of the confidence
comprehension: Python truthiness, so a missing confidence and a
confidence of `0.0` are both excluded. -/
def confidenceTruthy (o : ObserverReport) : Bool :=
  match o.confidence with
  | some v => v != 0
  | none => false

/-- `[obs.get("confidence", 0.5) for obs in observations if
obs.get("confidence")]`. -/
def collected_confidences (observations : List ObserverReport) : List ℚ :=
  (observations.filter confidenceTruthy).map (fun o => o.confidence.getD (1/2))

/-- `avg_confidence = sum(confidences) / len(confidences) if confidences
else 0.5` from `_aggregate_observations` (the returned dict stores
`round(avg_confidence, 2)`; the display rounding is omitted here — the
claims concern which values enter the mean). -/
def avg_confidence (observations : List ObserverReport) : ℚ :=
  let confidences := collected_confidences observations
  if confidences = [] then 1/2 else confidences.sum / confidences.length

/-- C4: for every non-empty list of observer reports the aggregated
overall status is `"fail"` if any report has status `"fail"`, else
`"warning"` if any has `"warning"`, else `"pass"` if any has `"pass"`,
else `"unknown"` (so `error` reports rank below `pass`). -/
theorem C4_aggregation_priority (observations : List ObserverReport)
    (hne : observations ≠ []) :
    (overall_status observations = "fail" ↔
      ∃ r ∈ observations, reportStatus r = "fail") ∧
    (overall_status observations = "warning" ↔
      (∀ r ∈ observations, reportStatus r ≠ "fail") ∧
      ∃ r ∈ observations, reportStatus r = "warning") ∧
    (overall_status observations = "pass" ↔
      (∀ r ∈ observations, reportStatus r ≠ "fail" ∧ reportStatus r ≠ "warning") ∧
      ∃ r ∈ observations, reportStatus r = "pass") ∧
    (overall_status observations = "unknown" ↔
      ∀ r ∈ observations, reportStatus r ≠ "fail" ∧ reportStatus r ≠ "warning" ∧
        reportStatus r ≠ "pass") := by
  unfold overall_status
  simp only [List.mem_map]
  split_ifs with h1 h2 h3
  · obtain ⟨a, ha, hfa⟩ := h1
    refine ⟨⟨fun _ => ⟨a, ha, hfa⟩, fun _ => rfl⟩, ?_, ?_, ?_⟩
    · exact ⟨fun h => absurd h (by decide),
        fun ⟨hall, _⟩ => absurd hfa (hall a ha)⟩
    · exact ⟨fun h => absurd h (by decide),
        fun ⟨hall, _⟩ => absurd hfa (hall a ha).1⟩
    · exact ⟨fun h => absurd h (by decide),
        fun hall => absurd hfa (hall a ha).1⟩
  · obtain ⟨a, ha, hwa⟩ := h2
    have hnf : ∀ r ∈ observations, reportStatus r ≠ "fail" :=
      fun r hr he => h1 ⟨r, hr, he⟩
    refine ⟨?_, ?_, ?_, ?_⟩
    · exact ⟨fun h => absurd h (by decide), fun hx => absurd hx h1⟩
    · exact ⟨fun _ => ⟨hnf, a, ha, hwa⟩, fun _ => rfl⟩
    · exact ⟨fun h => absurd h (by decide),
        fun ⟨hall, _⟩ => absurd hwa (hall a ha).2⟩
    · exact ⟨fun h => absurd h (by decide),
        fun hall => absurd hwa (hall a ha).2.1⟩
  · obtain ⟨a, ha, hpa⟩ := h3
    have hnf : ∀ r ∈ observations, reportStatus r ≠ "fail" :=
      fun r hr he => h1 ⟨r, hr, he⟩
    have hnw : ∀ r ∈ observations, reportStatus r ≠ "warning" :=
      fun r hr he => h2 ⟨r, hr, he⟩
    refine ⟨?_, ?_, ?_, ?_⟩
    · exact ⟨fun h => absurd h (by decide), fun hx => absurd hx h1⟩
    · exact ⟨fun h => absurd h (by decide), fun ⟨_, hx⟩ => absurd hx h2⟩
    · exact ⟨fun _ => ⟨fun r hr => ⟨hnf r hr, hnw r hr⟩, a, ha, hpa⟩,
        fun _ => rfl⟩
    · exact ⟨fun h => absurd h (by decide),
        fun hall => absurd hpa (hall a ha).2.2⟩
  · have hnf : ∀ r ∈ observations, reportStatus r ≠ "fail" :=
      fun r hr he => h1 ⟨r, hr, he⟩
    have hnw : ∀ r ∈ observations, reportStatus r ≠ "warning" :=
      fun r hr he => h2 ⟨r, hr, he⟩
    have hnp : ∀ r ∈ observations, reportStatus r ≠ "pass" :=
      fun r hr he => h3 ⟨r, hr, he⟩
    refine ⟨?_, ?_, ?_, ?_⟩
    · exact ⟨fun h => absurd h (by decide), fun hx => absurd hx h1⟩
    · exact ⟨fun h => absurd h (by decide), fun ⟨_, hx⟩ => absurd hx h2⟩
    · exact ⟨fun h => absurd h (by decide), fun ⟨_, hx⟩ => absurd hx h3⟩
    · exact ⟨fun _ => fun r hr => ⟨hnf r hr, hnw r hr, hnp r hr⟩,
        fun _ => rfl⟩

/-- C4 witness: the spec's own examples, `[pass, warning, pass]` gives
`warning` and `[pass, fail, pass]` gives `fail`. -/
theorem C4_witness :
    overall_status
        [⟨"build", some "pass", none⟩, ⟨"quality", some "warning", none⟩,
         ⟨"requirements", some "pass", none⟩] = "warning" ∧
    overall_status
        [⟨"build", some "pass", none⟩, ⟨"quality", some "fail", none⟩,
         ⟨"requirements", some "pass", none⟩] = "fail" := by
  constructor
  · have h := (C4_aggregation_priority
      [⟨"build", some "pass", none⟩, ⟨"quality", some "warning", none⟩,
       ⟨"requirements", some "pass", none⟩] (by simp)).2.1
    exact h.mpr ⟨by decide, ⟨"quality", some "warning", none⟩, by simp, by decide⟩
  · have h := (C4_aggregation_priority
      [⟨"build", some "pass", none⟩, ⟨"quality", some "fail", none⟩,
       ⟨"requirements", some "pass", none⟩] (by simp)).1
    exact h.mpr ⟨⟨"quality", some "fail", none⟩, by simp, by decide⟩

/-- The averaging rule as the claim words it (for the refinement
comparison of C5): the mean of all confidence values that are *present*,
a failed perspective's `confidence = 0` included as zero. -/
def claimed_avg_confidence (observations : List ObserverReport) : ℚ :=
  let confidences := observations.filterMap (fun o => o.confidence)
  if confidences = [] then 1/2 else confidences.sum / confidences.length

/-- The confidence values that actually enter the source's average:
present *and nonzero* (the truthiness filter). -/
def nonzero_confidences (observations : List ObserverReport) : List ℚ :=
  observations.filterMap (fun o =>
    match o.confidence with
    | some v => if v = 0 then none else some v
    | none => none)

/-- C5 counterexample: a passing report with confidence `0.8` together
with a failed report carrying `status = "error"`, `confidence = 0` (the
shape `gather_observations` appends on collaborator failure).  The
claim demands the failed report be averaged in as zero, giving `0.4`;
the source's truthiness filter drops it and yields `0.8`. -/
theorem C5_counterexample :
    avg_confidence
        [⟨"build", some "pass", some (4/5)⟩, ⟨"quality", some "error", some 0⟩]
      = 4/5 ∧
    claimed_avg_confidence
        [⟨"build", some "pass", some (4/5)⟩, ⟨"quality", some "error", some 0⟩]
      = 2/5 ∧
    (4 : ℚ)/5 ≠ 2/5 := by
  refine ⟨?_, ?_, by norm_num⟩
  · simp [avg_confidence, collected_confidences, confidenceTruthy]
  · simp [claimed_avg_confidence]
    norm_num

theorem collected_eq_nonzero (observations : List ObserverReport) :
    collected_confidences observations = nonzero_confidences observations := by
  induction observations with
  | nil => rfl
  | cons o rest ih =>
    unfold collected_confidences nonzero_confidences at ih ⊢
    by_cases ht : confidenceTruthy o
    · obtain ⟨v, hv, hnz⟩ : ∃ v, o.confidence = some v ∧ ¬ v = 0 := by
        unfold confidenceTruthy at ht
        cases hco : o.confidence with
        | none => rw [hco] at ht; exact absurd ht (by simp)
        | some v => rw [hco] at ht; exact ⟨v, rfl, by simpa using ht⟩
      rw [List.filter_cons_of_pos ht, List.map_cons, List.filterMap_cons]
      simp only [hv, if_neg hnz]
      rw [ih]
      rfl
    · have hnone : (match o.confidence with
          | some v => if v = 0 then none else some v
          | none => none) = (none : Option ℚ) := by
        unfold confidenceTruthy at ht
        cases hco : o.confidence with
        | none => rfl
        | some v =>
          rw [hco] at ht
          have hv0 : v = 0 := by simpa using ht
          simp [hv0]
      rw [List.filter_cons_of_neg ht, List.filterMap_cons, hnone, ih]

/-- C5 amended: the aggregate confidence is the arithmetic mean of the
confidence values that are present **and nonzero** — a perspective with
no confidence value is excluded, and so is one whose confidence is `0`
(in particular every failed perspective, which is reported with
confidence `0`); when nothing survives the filter the aggregate defaults
to `0.5`. -/
theorem C5_amended_nonzero_mean (observations : List ObserverReport) :
    (nonzero_confidences observations ≠ [] →
      avg_confidence observations =
        (nonzero_confidences observations).sum /
          (nonzero_confidences observations).length) ∧
    (nonzero_confidences observations = [] →
      avg_confidence observations = 1/2) := by
  unfold avg_confidence
  rw [collected_eq_nonzero]
  constructor
  · intro hne
    rw [if_neg hne]
  · intro he
    rw [if_pos he]

/-- C5 amended witness: on the counterexample pair the mean is taken
over the single nonzero confidence. -/
theorem C5_amended_witness :
    avg_confidence
        [⟨"build", some "pass", some (4/5)⟩, ⟨"quality", some "error", some 0⟩]
      = (4/5 : ℚ) / 1 := by
  have hx : nonzero_confidences
      [⟨"build", some "pass", some (4/5)⟩, ⟨"quality", some "error", some 0⟩]
      = [4/5] := by
    rw [nonzero_confidences, List.filterMap_cons, List.filterMap_cons,
      List.filterMap_nil]
    norm_num
  have h := (C5_amended_nonzero_mean
    [⟨"build", some "pass", some (4/5)⟩, ⟨"quality", some "error", some 0⟩]).1
    (by rw [hx]; simp)
  rw [h, hx]
  norm_num

/-! ### Failure recovery (`_handle_task_failure`, lines 891-968) -/

/-- The decision part of the dict returned by `_handle_task_failure`:
`failure_count` is the total failure counter after the increment,
`recovery_action`/`final_status` are the strings written in the two
branches, `backoff_seconds` is set only in the retry branch. -/
structure RecoveryDecision where
  failure_count : Nat
  recovery_action : String
  final_status : String
  backoff_seconds : Option Nat
deriving DecidableEq

/-- `_handle_task_failure` for one task: the handler first increments
the task's total failure counter (`prev_total` is the value before this
failure), then compares `total_failures < max_attempts` (the task's
`policy.max_attempts`, default 3) and either schedules a retry with
exponential backoff `min(2 ** (total_failures - 1), 30)` or escalates.
Checkpoint creation, logging and the per-phase counters do not affect
the decision and are omitted. -/
def _handle_task_failure (prev_total max_attempts : Nat) : RecoveryDecision :=
  let total_failures := prev_total + 1
  if total_failures < max_attempts then
    { failure_count := total_failures
      recovery_action := "retry_with_backoff"
      final_status := "retry_needed"
      backoff_seconds := some (min (2 ^ (total_failures - 1)) 30) }
  else
    { failure_count := total_failures
      recovery_action := "escalate"
      final_status := "max_attempts_exceeded"
      backoff_seconds := none }

/-- C3: after recording a failure (incrementing the counter), the
recovery handler retries with backoff `min(2^(totalFailures-1), 30)`
exactly when `totalFailures < maxAttempts` and escalates exactly when
`totalFailures ≥ maxAttempts`; the backoff values for failures 1..6 are
1, 2, 4, 8, 16, 30. -/
theorem C3_recovery_retry_backoff (prev_total max_attempts : Nat)
    (hmax : 1 ≤ max_attempts) :
    ((_handle_task_failure prev_total max_attempts).failure_count
      = prev_total + 1) ∧
    (prev_total + 1 < max_attempts →
      _handle_task_failure prev_total max_attempts =
        ⟨prev_total + 1, "retry_with_backoff", "retry_needed",
         some (min (2 ^ prev_total) 30)⟩) ∧
    (max_attempts ≤ prev_total + 1 →
      _handle_task_failure prev_total max_attempts =
        ⟨prev_total + 1, "escalate", "max_attempts_exceeded", none⟩) ∧
    (List.range 6).map (fun k => min (2 ^ k) 30) = [1, 2, 4, 8, 16, 30] := by
  unfold _handle_task_failure
  dsimp only
  refine ⟨?_, ?_, ?_, by decide⟩
  · split_ifs <;> rfl
  · intro hlt
    rw [if_pos hlt]
    simp
  · intro hge
    rw [if_neg (by omega)]

/-- C3 witness: first failure of a task with the default
`max_attempts = 3` retries with a 1-second backoff. -/
theorem C3_witness :
    _handle_task_failure 0 3 =
      ⟨1, "retry_with_backoff", "retry_needed", some 1⟩ := by
  have h := (C3_recovery_retry_backoff 0 3 (by decide)).2.1 (by decide)
  simpa using h

/-! ### Plan modification (`PlanModifier`, lines 657-771)

Python strings are processed character-wise here (`str.split`,
`str.strip`, `str.startswith`, slicing), so the string helpers are
embedded over `List Char`, mirroring the corresponding Python `str`
methods, and wrapped back into `String` at the interface. -/

/-- `s.split(c)` for a single-character separator: splitting the empty
string gives one empty piece, exactly as in Python. -/
def splitOnChar (c : Char) : List Char → List (List Char)
  | [] => [[]]
  | x :: xs =>
    let r := splitOnChar c xs
    if x = c then [] :: r
    else
      match r with
      | ys :: rest => (x :: ys) :: rest
      | [] => [[x]]

/-- `s.strip()`: remove leading and trailing whitespace. -/
def trimChars (l : List Char) : List Char :=
  ((l.dropWhile Char.isWhitespace).reverse.dropWhile Char.isWhitespace).reverse

/-- `s.startswith(pat)` (second argument is the pattern). -/
def startsWithList : List Char → List Char → Bool
  | _, [] => true
  | [], _ :: _ => false
  | x :: xs, y :: ys => x = y && startsWithList xs ys

/-- `s.split(':', 1)[1]`: everything after the first colon (callers
guard with `':' in s`). -/
def afterFirstColon : List Char → List Char
  | [] => []
  | x :: xs => if x = ':' then xs else afterFirstColon xs

/-- The per-line body of `_parse_subtasks` (lines 759-769): keep a
stripped line only if it starts with `1.` ... `5.` or `-`; take the
text after the first `:` when a colon is present, else drop the
two-character marker; drop items whose description strips to empty. -/
def parse_line (line0 : List Char) : Option (List Char) :=
  let line := trimChars line0
  if startsWithList line ['1', '.'] || startsWithList line ['2', '.'] ||
     startsWithList line ['3', '.'] || startsWithList line ['4', '.'] ||
     startsWithList line ['5', '.'] || startsWithList line ['-'] then
    let desc :=
      if line.contains ':' then trimChars (afterFirstColon line)
      else trimChars (line.drop 2)
    if desc ≠ [] then some desc else none
  else none

/-- `_parse_subtasks` (lines 754-771): split `action_details` on
newlines and collect the parsed items. -/
def _parse_subtasks (action_details : String) : List String :=
  ((splitOnChar '\n' action_details.data).filterMap parse_line).map String.mk

/-- A task dict as handled by `PlanModifier` and `TaskQueue`.
`retry_count` embeds `task.get("retry_count", 0)`; fields the handlers
may leave absent are `Option`s.  `created_at` timestamps are omitted. -/
structure QTask where
  id : String
  title : String
  description : String
  parent_id : Option String
  priority : String
  status : String
  retry_count : Nat
  last_retry_reason : Option String
  subtask_count : Option Nat
deriving DecidableEq

/-- The subtask dict built for item `i` (0-based) in `_handle_decompose`
lines 715-724. -/
def decompose_subtask (current : QTask) (i : Nat) (desc : String) : QTask :=
  { id := current.id ++ "_sub_" ++ toString (i + 1)
    title := "Subtask " ++ toString (i + 1) ++ " of " ++ current.title
    description := desc
    parent_id := some current.id
    priority := current.priority
    status := "pending"
    retry_count := 0
    last_retry_reason := none
    subtask_count := none }

/-- `_handle_decompose` (lines 703-731): parse subtasks from the
decision's `action_details`; with no subtasks return `False` and change
nothing; otherwise enqueue one new pending subtask per item
(`task_queue.add_task` appends to the queue), mark the original task
`decomposed` with its `subtask_count`, and return `True`.  Result is
`(return value, queue after, current task after)`. -/
def _handle_decompose (queue : List QTask) (action_details : String)
    (current : QTask) : Bool × List QTask × QTask :=
  let subtasks := _parse_subtasks action_details
  if subtasks = [] then (false, queue, current)
  else
    (true,
     queue ++ subtasks.enum.map (fun p => decompose_subtask current p.1 p.2),
     { current with status := "decomposed",
                    subtask_count := some subtasks.length })

/-- C6: when the decision's `action_details` parses to `N ≥ 1` subtask
items, `_handle_decompose` returns `True`, marks the original task
`decomposed` (recording `subtask_count = N`), and appends exactly `N`
new tasks to the queue, each with status `pending`, parent link to the
original, and id `parent_id ++ "_sub_" ++ (i+1)`; when zero items parse
it returns `False` and mutates nothing. -/
theorem C6_decompose_creates_n_subtasks (queue : List QTask)
    (details : String) (current : QTask) :
    (1 ≤ (_parse_subtasks details).length →
      (_handle_decompose queue details current).1 = true ∧
      (_handle_decompose queue details current).2.2 =
        { current with status := "decomposed",
                       subtask_count := some (_parse_subtasks details).length } ∧
      (_handle_decompose queue details current).2.1 =
        queue ++ (_parse_subtasks details).enum.map
          (fun p => decompose_subtask current p.1 p.2) ∧
      (_handle_decompose queue details current).2.1.length =
        queue.length + (_parse_subtasks details).length ∧
      (∀ q ∈ (_parse_subtasks details).enum.map
          (fun p => decompose_subtask current p.1 p.2),
        q.status = "pending" ∧ q.parent_id = some current.id) ∧
      ((_parse_subtasks details).enum.map
          (fun p => decompose_subtask current p.1 p.2)).map QTask.id =
        (List.range (_parse_subtasks details).length).map
          (fun i => current.id ++ "_sub_" ++ toString (i + 1))) ∧
    ((_parse_subtasks details).length = 0 →
      _handle_decompose queue details current = (false, queue, current)) := by
  constructor
  · intro hn
    have hne : ¬ _parse_subtasks details = [] := by
      intro h0
      rw [h0] at hn
      exact absurd hn (by decide)
    unfold _handle_decompose
    dsimp only
    rw [if_neg hne]
    refine ⟨rfl, rfl, rfl, ?_, ?_, ?_⟩
    · simp
    · intro q hq
      rw [List.mem_map] at hq
      obtain ⟨p, _, hpq⟩ := hq
      rw [← hpq]
      exact ⟨rfl, rfl⟩
    · rw [List.map_map]
      have hcomp : QTask.id ∘ (fun p : Nat × String =>
          decompose_subtask current p.1 p.2) =
          (fun i => current.id ++ "_sub_" ++ toString (i + 1)) ∘ Prod.fst := rfl
      rw [hcomp, ← List.map_map, List.enum_map_fst]
  · intro h0
    have hnil : _parse_subtasks details = [] := List.length_eq_zero.mp h0
    unfold _handle_decompose
    dsimp only
    rw [if_pos hnil]

/-- C6 witness: a three-item numbered description yields exactly three
pending children of the decomposed node. -/
theorem C6_witness :
    _handle_decompose []
        "1. Set up repo\n2. Add parser\n3. Write tests"
        ⟨"t7", "Build it", "build everything", none, "medium", "in_progress",
         0, none, none⟩ =
      (true,
       [⟨"t7_sub_1", "Subtask 1 of Build it", "Set up repo", some "t7",
         "medium", "pending", 0, none, none⟩,
        ⟨"t7_sub_2", "Subtask 2 of Build it", "Add parser", some "t7",
         "medium", "pending", 0, none, none⟩,
        ⟨"t7_sub_3", "Subtask 3 of Build it", "Write tests", some "t7",
         "medium", "pending", 0, none, none⟩],
       ⟨"t7", "Build it", "build everything", none, "medium", "decomposed",
        0, none, some 3⟩) := by
  have h := (C6_decompose_creates_n_subtasks []
    "1. Set up repo\n2. Add parser\n3. Write tests"
    ⟨"t7", "Build it", "build everything", none, "medium", "in_progress",
     0, none, none⟩).1 (by decide)
  have hq := h.2.2.1
  have ht := h.2.1
  have hb := h.1
  have hgoal : _handle_decompose []
      "1. Set up repo\n2. Add parser\n3. Write tests"
      ⟨"t7", "Build it", "build everything", none, "medium", "in_progress",
       0, none, none⟩ =
      ((_handle_decompose [] "1. Set up repo\n2. Add parser\n3. Write tests"
        ⟨"t7", "Build it", "build everything", none, "medium", "in_progress",
         0, none, none⟩).1,
       (_handle_decompose [] "1. Set up repo\n2. Add parser\n3. Write tests"
        ⟨"t7", "Build it", "build everything", none, "medium", "in_progress",
         0, none, none⟩).2.1,
       (_handle_decompose [] "1. Set up repo\n2. Add parser\n3. Write tests"
        ⟨"t7", "Build it", "build everything", none, "medium", "in_progress",
         0, none, none⟩).2.2) := rfl
  rw [hgoal, hb, hq, ht]
  decide

/-- `_handle_retry` (lines 687-701): increment `retry_count`, record the
decision's reasoning, and re-add the task to the queue when the new
count is at most 3 (a hardcoded limit); otherwise return `False`.
Result is `(return value, queue after, current task after)`;
`task_queue.add_task` appends and its state write is modeled as always
succeeding. -/
def _handle_retry (queue : List QTask) (current : QTask)
    (reasoning : String) : Bool × List QTask × QTask :=
  let retry_count := current.retry_count + 1
  let updated := { current with retry_count := retry_count,
                                last_retry_reason := some reasoning }
  if retry_count ≤ 3 then (true, queue ++ [updated], updated)
  else (false, queue, updated)

/-- The task as `_handle_retry` leaves it: counter incremented and
reasoning recorded (only these two keys are written). -/
def retried_task (current : QTask) (reasoning : String) : QTask :=
  { current with retry_count := current.retry_count + 1,
                 last_retry_reason := some reasoning }

/-- C8 counterexample: retrying a failed task with `retry_count = 0`
(below any attempt limit) re-enqueues it but leaves its status
`"failed"` — the status is *not* reset to `"pending"`; and a task whose
attempts are exhausted (`retry_count = 3`, so the incremented count
exceeds the hardcoded limit 3) is simply dropped with `False` — its
status is not set to `"escalated"` and no escalation handling runs. -/
theorem C8_counterexample :
    ((_handle_retry [] ⟨"t1", "T", "d", none, "medium", "failed", 0, none,
        none⟩ "flaky").2.2.status = "failed" ∧
      ("failed" : String) ≠ "pending") ∧
    (_handle_retry [] ⟨"t1", "T", "d", none, "medium", "failed", 3, none,
        none⟩ "again" =
      (false, [], ⟨"t1", "T", "d", none, "medium", "failed", 4,
        some "again", none⟩) ∧
      ("failed" : String) ≠ "escalated") := by
  decide

/-- C8 amended: applying a Retry decision increments `retry_count` and
records the reasoning, leaving the status unchanged (never reset to
`pending`); the task is re-enqueued (returning `True`) exactly when the
incremented count is at most the hardcoded limit 3 — `policy.max_attempts`
is not consulted — and otherwise the handler returns `False` without
escalating or touching the queue. -/
theorem C8_retry_amended (queue : List QTask) (current : QTask)
    (reasoning : String) :
    ((_handle_retry queue current reasoning).2.2 =
      retried_task current reasoning) ∧
    (_handle_retry queue current reasoning).2.2.status = current.status ∧
    (current.retry_count + 1 ≤ 3 →
      _handle_retry queue current reasoning =
        (true, queue ++ [retried_task current reasoning],
         retried_task current reasoning)) ∧
    (3 < current.retry_count + 1 →
      _handle_retry queue current reasoning =
        (false, queue, retried_task current reasoning)) := by
  unfold _handle_retry
  dsimp only
  by_cases h3 : current.retry_count + 1 ≤ 3
  · rw [if_pos h3]
    exact ⟨rfl, rfl, fun _ => rfl, fun hgt => absurd h3 (by omega)⟩
  · rw [if_neg h3]
    exact ⟨rfl, rfl, fun hle => absurd hle h3, fun _ => rfl⟩

/-- C8 amended witness: a first retry of a failed task re-enqueues it
with `retry_count = 1` and status still `"failed"`. -/
theorem C8_amended_witness :
    _handle_retry [] ⟨"t1", "T", "d", none, "medium", "failed", 0, none,
        none⟩ "flaky" =
      (true, [⟨"t1", "T", "d", none, "medium", "failed", 1, some "flaky",
        none⟩],
       ⟨"t1", "T", "d", none, "medium", "failed", 1, some "flaky", none⟩) := by
  have h := (C8_retry_amended []
    ⟨"t1", "T", "d", none, "medium", "failed", 0, none, none⟩ "flaky").2.2.1
    (by decide)
  rw [h]
  rfl

/-! ### Checkpoint store (`_create_checkpoint`, lines 852-889)

`self.recovery_state["checkpoints"]` is a Python dict keyed by
checkpoint name; `_create_checkpoint` ends in the assignment
`self.recovery_state["checkpoints"][checkpoint_name] = checkpoint`,
which *replaces* the stored snapshot when the name already exists and
appends it (dicts preserve insertion order) when it does not.  The dict
is embedded as an association list with exactly those semantics. -/

/-- The snapshot contents assembled by `_create_checkpoint`: name,
timestamp (a tick counter — wall-clock time is opaque to the claims),
run id, iteration, the three state-file snapshots, and the failure
counters copy. -/
structure PCheckpoint where
  name : String
  timestamp : Nat
  run_id : String
  iteration : Nat
  task_queue_snapshot : String
  execution_history_snapshot : String
  current_task_snapshot : String
  failure_counts_snapshot : List (String × Nat)
deriving DecidableEq

/-- The dict assignment
`recovery_state["checkpoints"][name] = checkpoint`: replace the entry
if the key exists, else append it. -/
def _create_checkpoint (checkpoints : List (String × PCheckpoint))
    (name : String) (cp : PCheckpoint) : List (String × PCheckpoint) :=
  match checkpoints with
  | [] => [(name, cp)]
  | p :: rest =>
    if p.1 = name then (name, cp) :: rest
    else p :: _create_checkpoint rest name cp

/-- Dict lookup `recovery_state["checkpoints"][name]`. -/
def lookupCheckpoint (checkpoints : List (String × PCheckpoint))
    (name : String) : Option PCheckpoint :=
  match checkpoints with
  | [] => none
  | p :: rest => if p.1 = name then some p.2 else lookupCheckpoint rest name

/-- C9 counterexample: `_execute_atomic_task` checkpoints every
execution of task `t1` under the same name `before_task_t1`
(line 1344), so re-executing the task stores a second checkpoint that
*replaces* the first: after the second store the snapshot recorded
under the name is the new one, not the originally created one. -/
theorem C9_counterexample :
    lookupCheckpoint
        (_create_checkpoint
          (_create_checkpoint [] "before_task_t1"
            ⟨"before_task_t1", 1, "run1", 0, "q0", "h0", "c0", []⟩)
          "before_task_t1"
          ⟨"before_task_t1", 2, "run1", 1, "q1", "h1", "c1", [("t1", 1)]⟩)
        "before_task_t1"
      = some ⟨"before_task_t1", 2, "run1", 1, "q1", "h1", "c1", [("t1", 1)]⟩ ∧
    (⟨"before_task_t1", 2, "run1", 1, "q1", "h1", "c1", [("t1", 1)]⟩ :
        PCheckpoint)
      ≠ ⟨"before_task_t1", 1, "run1", 0, "q0", "h0", "c0", []⟩ := by
  decide

theorem create_checkpoint_other_name (checkpoints : List (String × PCheckpoint))
    (n : String) (cp : PCheckpoint) (name : String) (hne : n ≠ name) :
    lookupCheckpoint (_create_checkpoint checkpoints n cp) name
      = lookupCheckpoint checkpoints name := by
  induction checkpoints with
  | nil =>
    unfold _create_checkpoint lookupCheckpoint
    rw [if_neg hne]
    rfl
  | cons p rest ih =>
    unfold _create_checkpoint
    by_cases hp : p.1 = n
    · rw [if_pos hp]
      unfold lookupCheckpoint
      rw [if_neg hne, if_neg (hp ▸ hne)]
    · rw [if_neg hp]
      unfold lookupCheckpoint
      by_cases hpn : p.1 = name
      · rw [if_pos hpn, if_pos hpn]
      · rw [if_neg hpn, if_neg hpn]
        exact ih

/-- C9 amended: a checkpoint stored under a name is unchanged by any
later sequence of checkpoint creations *as long as none of them reuses
that name*; creating a checkpoint under an existing name replaces the
stored snapshot (Python dict assignment), as the counterexample shows. -/
theorem C9_checkpoint_stable_amended
    (checkpoints : List (String × PCheckpoint)) (name : String)
    (cp : PCheckpoint)
    (hstored : lookupCheckpoint checkpoints name = some cp)
    (later : List (String × PCheckpoint))
    (hfresh : ∀ p ∈ later, p.1 ≠ name) :
    lookupCheckpoint
        (later.foldl (fun acc p => _create_checkpoint acc p.1 p.2) checkpoints)
        name
      = some cp := by
  induction later generalizing checkpoints with
  | nil => simpa using hstored
  | cons q rest ih =>
    rw [List.foldl_cons]
    refine ih (_create_checkpoint checkpoints q.1 q.2) ?_
      (fun p hp => hfresh p (List.mem_cons_of_mem q hp))
    rw [create_checkpoint_other_name checkpoints q.1 q.2 name
      (hfresh q (List.mem_cons_self q rest))]
    exact hstored

/-- C9 amended witness: the `system_initialization` checkpoint survives
two later `before_task_t1` / `success_t1` checkpoints untouched. -/
theorem C9_amended_witness :
    lookupCheckpoint
        ([(("before_task_t1" : String),
            (⟨"before_task_t1", 2, "run1", 1, "q1", "h1", "c1", []⟩ :
              PCheckpoint)),
          (("success_t1" : String),
            (⟨"success_t1", 3, "run1", 1, "q2", "h2", "c2", []⟩ :
              PCheckpoint))].foldl
          (fun acc p => _create_checkpoint acc p.1 p.2)
          [("system_initialization",
            ⟨"system_initialization", 1, "run1", 0, "q0", "h0", "c0", []⟩)])
        "system_initialization"
      = some ⟨"system_initialization", 1, "run1", 0, "q0", "h0", "c0", []⟩ := by
  exact C9_checkpoint_stable_amended _ _ _ (by decide) _ (by decide)

/-! ### Recursive execution engine (`execute_task`, lines 1292-1336, and
`_execute_parent_task`, lines 1484-1543)

The atomic path (`_execute_atomic_task`) calls the external
executor/assessor/planner collaborators; it is abstracted as an oracle
`exec : PTask → Nat → TResult` supplied to the engine.  The depth check
and the parent orchestration above it are embedded exactly. -/

/-- The task dict as read by `execute_task` and
`_execute_parent_task`: `id` (`task.get('id', 'unknown')` — totalised),
`type` (default `'atomic'`), the `subtasks` list, and
`policy.max_depth` (default 5, folded into the field).  The remaining
keys (`title`, `description`, `policy.max_attempts`,
`policy.timeout_seconds`, `acceptance`, ...) are not read by the
embedded control flow.  A `children` key is treated by the source
exactly like `subtasks` in the `has_subtasks` test and is not modeled
separately. -/
inductive PTask : Type where
  | mk (id : String) (title : String) (ttype : String)
       (subtasks : List PTask) (max_depth : Nat)

def PTask.id : PTask → String
  | .mk i _ _ _ _ => i

def PTask.title : PTask → String
  | .mk _ t _ _ _ => t

def PTask.ttype : PTask → String
  | .mk _ _ ty _ _ => ty

def PTask.subtasks : PTask → List PTask
  | .mk _ _ _ ss _ => ss

def PTask.max_depth : PTask → Nat
  | .mk _ _ _ _ d => d

theorem PTask.one_le_sizeOf (t : PTask) : 1 ≤ sizeOf t := by
  cases t with
  | mk i ti ty ss d => simp only [PTask.mk.sizeOf_spec]; omega

/-- The execution-result dict: `task_id`, `status`, `final_status`,
`error`, `recovery_action` (set only when `_handle_task_failure` was
consulted; the depth-limit and parent results carry none) and, for
parent results, the accumulated `subtask_results`. -/
inductive TResult : Type where
  | mk (task_id : String) (status : String) (final_status : Option String)
       (error : Option String) (recovery_action : Option String)
       (subtask_results : List TResult)

def TResult.task_id : TResult → String
  | .mk i _ _ _ _ _ => i

def TResult.status : TResult → String
  | .mk _ s _ _ _ _ => s

def TResult.final_status : TResult → Option String
  | .mk _ _ f _ _ _ => f

def TResult.error : TResult → Option String
  | .mk _ _ _ e _ _ => e

def TResult.recovery_action : TResult → Option String
  | .mk _ _ _ _ r _ => r

def TResult.subtask_results : TResult → List TResult
  | .mk _ _ _ _ _ rs => rs

/-- The per-child success test of `_execute_parent_task` line 1523: a
subtask counts as failed iff `final_status != "completed"` **and**
`status != "success"`. -/
def childSuccessful (r : TResult) : Bool :=
  r.final_status == some "completed" || r.status == "success"

/-- `_prepare_subtask` (lines 1545-1571): the prepared dict copies the
spec's id/title/type, installs a fresh policy whose `max_depth` is the
parent's, and — notably — carries **no** `subtasks`/`children` key, so
a prepared subtask never takes the parent branch. -/
def _prepare_subtask (spec parent : PTask) : PTask :=
  .mk spec.id spec.title spec.ttype [] parent.max_depth

mutual

/-- `execute_task` (lines 1292-1336): depth check first — a task at
`depth > policy.max_depth` fails immediately with the depth-limit
error, touching neither the collaborators nor the recovery handler —
then dispatch between the parent orchestration and the atomic path
(the oracle `exec`). -/
def execute_task (exec : PTask → Nat → TResult) (t : PTask) (depth : Nat) :
    TResult :=
  if t.max_depth < depth then
    .mk t.id "failure" none
      (some ("Maximum depth " ++ toString t.max_depth ++ " exceeded")) none []
  else if ¬ t.subtasks.isEmpty ∧ t.ttype = "parent" then
    _execute_parent_task exec t depth
  else exec t depth
termination_by (sizeOf t.subtasks, 2)
decreasing_by
  apply Prod.Lex.right
  omega

/-- `_execute_parent_task` (lines 1484-1543): run every subtask
recursively in order (the loop never breaks), collect the results, and
aggregate: `success`/`completed` when all subtasks succeeded, else
`partial_failure`/`subtask_failures`. -/
def _execute_parent_task (exec : PTask → Nat → TResult) (t : PTask)
    (depth : Nat) : TResult :=
  let results := execute_subtasks exec t t.subtasks depth
  let allOk := results.all childSuccessful
  .mk t.id (if allOk then "success" else "partial_failure")
    (some (if allOk then "completed" else "subtask_failures")) none none results
termination_by (sizeOf t.subtasks, 1)
decreasing_by
  apply Prod.Lex.right
  omega

/-- The `for i, subtask_spec in enumerate(subtasks)` loop of
`_execute_parent_task`: prepare each spec and recurse at `depth + 1`. -/
def execute_subtasks (exec : PTask → Nat → TResult) (parent : PTask) :
    List PTask → Nat → List TResult
  | [], _ => []
  | s :: rest, depth =>
    execute_task exec (_prepare_subtask s parent) (depth + 1) ::
      execute_subtasks exec parent rest depth
termination_by ss _d => (sizeOf ss, 0)
decreasing_by
  · apply Prod.Lex.left
    have h1 := PTask.one_le_sizeOf s
    simp only [_prepare_subtask, PTask.subtasks, List.cons.sizeOf_spec]
    simp
    omega
  · apply Prod.Lex.left
    simp only [List.cons.sizeOf_spec]
    have h1 := PTask.one_le_sizeOf s
    omega

end

theorem execute_subtasks_eq_map (exec : PTask → Nat → TResult)
    (parent : PTask) (ss : List PTask) (depth : Nat) :
    execute_subtasks exec parent ss depth =
      ss.map (fun s => execute_task exec (_prepare_subtask s parent)
        (depth + 1)) := by
  induction ss with
  | nil => rw [execute_subtasks, List.map_nil]
  | cons s rest ih => rw [execute_subtasks, List.map_cons, ih]

/-- C2: a parent task within its depth budget executes **every** child
in order through the recursive `execute_task` — one result per child,
the i-th being the recursive execution of the i-th prepared child, so a
failing child never stops its later siblings — and the parent
aggregates to `success`/`completed` iff every child resolved
successfully (`final_status == "completed"` or `status == "success"`),
ending in `partial_failure` otherwise. -/
theorem C2_parent_runs_all_children (exec : PTask → Nat → TResult)
    (t : PTask) (depth : Nat) (htyp : t.ttype = "parent")
    (hsub : t.subtasks ≠ []) (hd : depth ≤ t.max_depth) :
    (execute_task exec t depth).subtask_results =
      t.subtasks.map (fun s => execute_task exec (_prepare_subtask s t)
        (depth + 1)) ∧
    (execute_task exec t depth).subtask_results.length =
      t.subtasks.length ∧
    ((execute_task exec t depth).status = "success" ∧
      (execute_task exec t depth).final_status = some "completed" ↔
      ∀ r ∈ (execute_task exec t depth).subtask_results,
        childSuccessful r) ∧
    ((∃ r ∈ (execute_task exec t depth).subtask_results,
        ¬ childSuccessful r) →
      (execute_task exec t depth).status = "partial_failure" ∧
      (execute_task exec t depth).final_status = some "subtask_failures") := by
  have hnd : ¬ t.max_depth < depth := by omega
  have hcond : ¬ t.subtasks.isEmpty = true ∧ t.ttype = "parent" := by
    constructor
    · rw [List.isEmpty_iff]
      exact hsub
    · exact htyp
  rw [execute_task, if_neg hnd, if_pos hcond, _execute_parent_task]
  rw [TResult.subtask_results, TResult.status, TResult.final_status,
    execute_subtasks_eq_map]
  refine ⟨rfl, by rw [List.length_map], ?_, ?_⟩
  · by_cases hall : (t.subtasks.map (fun s => execute_task exec
        (_prepare_subtask s t) (depth + 1))).all childSuccessful
    · rw [if_pos hall, if_pos hall]
      exact ⟨fun _ => List.all_eq_true.mp hall, fun _ => ⟨rfl, rfl⟩⟩
    · rw [if_neg hall, if_neg hall]
      constructor
      · intro hcontra
        exact absurd hcontra.1 (by decide)
      · intro hforall
        exact absurd (List.all_eq_true.mpr hforall) hall
  · intro hex
    obtain ⟨r, hr, hbad⟩ := hex
    have hall : ¬ (t.subtasks.map (fun s => execute_task exec
        (_prepare_subtask s t) (depth + 1))).all childSuccessful := by
      intro hall
      exact hbad (List.all_eq_true.mp hall r hr)
    rw [if_neg hall, if_neg hall]
    exact ⟨rfl, rfl⟩

/-- C7: a task entered at `depth > policy.max_depth` fails immediately
with the depth-limit error: the result is the literal failure record
(carrying no `recovery_action` — the retry/backoff recovery handler is
not consulted) and is independent of the collaborator oracle, i.e. no
Act/Assess/Adapt phase runs. -/
theorem C7_depth_limit_terminal (exec exec2 : PTask → Nat → TResult)
    (t : PTask) (depth : Nat) (hd : t.max_depth < depth) :
    execute_task exec t depth =
      .mk t.id "failure" none
        (some ("Maximum depth " ++ toString t.max_depth ++ " exceeded"))
        none [] ∧
    (execute_task exec t depth).recovery_action = none ∧
    execute_task exec t depth = execute_task exec2 t depth := by
  have h1 : execute_task exec t depth =
      .mk t.id "failure" none
        (some ("Maximum depth " ++ toString t.max_depth ++ " exceeded"))
        none [] := by
    rw [execute_task, if_pos hd]
  have h2 : execute_task exec2 t depth =
      .mk t.id "failure" none
        (some ("Maximum depth " ++ toString t.max_depth ++ " exceeded"))
        none [] := by
    rw [execute_task, if_pos hd]
  exact ⟨h1, by rw [h1, TResult.recovery_action], h1.trans h2.symm⟩

/-- The spec's parent non-contagion scenario as a concrete input: a
parent of three children whose middle child fails. -/
def tC2 : PTask :=
  .mk "p" "Parent" "parent"
    [.mk "c1" "Child 1" "atomic" [] 5,
     .mk "c2" "Child 2" "atomic" [] 5,
     .mk "c3" "Child 3" "atomic" [] 5] 5

/-- An atomic-path oracle that fails exactly task `c2`. -/
def execC2 : PTask → Nat → TResult := fun s _ =>
  if s.id = "c2" then .mk s.id "failure" none (some "ACT phase error") none []
  else .mk s.id "success" (some "completed") none none []

theorem C2_witness :
    (execute_task execC2 tC2 0).subtask_results.length = 3 ∧
    (execute_task execC2 tC2 0).status = "partial_failure" := by
  have h := C2_parent_runs_all_children execC2 tC2 0 rfl
    (List.cons_ne_nil _ _) (Nat.zero_le _)
  have hc2 : execute_task execC2
      (_prepare_subtask (.mk "c2" "Child 2" "atomic" [] 5) tC2) 1 =
      .mk "c2" "failure" none (some "ACT phase error") none [] := by
    rw [execute_task]
    rw [if_neg (by decide), if_neg (by simp [_prepare_subtask, PTask.subtasks])]
    rfl
  constructor
  · rw [h.2.1]
    rfl
  · refine (h.2.2.2 ⟨execute_task execC2
      (_prepare_subtask (.mk "c2" "Child 2" "atomic" [] 5) tC2) 1, ?_, ?_⟩).1
    · rw [h.1]
      exact List.mem_map.mpr
        ⟨.mk "c2" "Child 2" "atomic" [] 5, by simp [tC2, PTask.subtasks], rfl⟩
    · rw [hc2]
      decide

theorem C7_witness :
    execute_task execC2 (.mk "t9" "Deep" "atomic" [] 2) 3 =
      .mk "t9" "failure" none (some "Maximum depth 2 exceeded") none [] ∧
    execute_task execC2 (.mk "t9" "Deep" "atomic" [] 2) 3 =
      execute_task (fun s _ => .mk s.id "success" (some "completed") none
        none []) (.mk "t9" "Deep" "atomic" [] 2) 3 := by
  have h := C7_depth_limit_terminal execC2
    (fun s _ => .mk s.id "success" (some "completed") none none [])
    (.mk "t9" "Deep" "atomic" [] 2) 3 (by decide)
  exact ⟨h.1, h.2.2⟩

end Prototype1
